import Mathlib

/-!
Verification development for the template expansion engine and option
compatibility resolver of `esp-generate` (`src/main.rs`).

The preprocessor `process_file` (main.rs:344-494) is embedded line by line.
Rust `str` methods used by the source (`trim`, `starts_with`, `strip_prefix`,
`split`, `split_whitespace`, `replace`, `lines`) are given executable
character-list implementations below so that every definition evaluates by
kernel reduction.  Rust `char::is_whitespace` is modelled by its ASCII subset,
which is exhaustive for the directive syntax involved.  The Rhai expression
engine is an external crate; expression evaluation (`engine.eval::<bool>`,
main.rs:379/437/453) is therefore a parameter `ev : String → Option Bool`
(`none` models an evaluation failure, which the source unwraps into a panic),
and `evalOption` below models, from the spec, the single registered predicate
form `option("name")` (main.rs:361-364, spec §4.1) used by the templates.
-/

/-- ASCII subset of Rust `char::is_whitespace`. -/
def wsChar (c : Char) : Bool :=
  c = ' ' || c = '\t' || c = '\n' || c = '\r'

/-- Rust `str::trim`. -/
def strTrim (s : String) : String :=
  ⟨((s.data.dropWhile wsChar).reverse.dropWhile wsChar).reverse⟩

/-- Rust `str::starts_with`. -/
def strStartsWith (s p : String) : Bool :=
  p.data.isPrefixOf s.data

/-- Rust `str::ends_with`. -/
def strEndsWith (s p : String) : Bool :=
  p.data.isSuffixOf s.data

/-- Drop the first `n` characters; `strip_prefix p` is `strDrop · (strLen p)`
guarded by `strStartsWith`. -/
def strDrop (s : String) (n : Nat) : String :=
  ⟨s.data.drop n⟩

/-- Drop the last `n` characters. -/
def strDropRight (s : String) (n : Nat) : String :=
  ⟨s.data.take (s.data.length - n)⟩

/-- Character count of a string. -/
def strLen (s : String) : Nat := s.data.length

/-- Fuel-indexed worker for `strReplace`; fuel bounds the number of scanning
steps and is instantiated with the full string length, which suffices for the
non-empty patterns the source uses. -/
def replGo (pat rep : List Char) : Nat → List Char → List Char
  | _, [] => []
  | 0, s => s
  | Nat.succ fuel, c :: rest =>
      if pat.isPrefixOf (c :: rest) then rep ++ replGo pat rep fuel ((c :: rest).drop pat.length)
      else c :: replGo pat rep fuel rest

/-- Rust `str::replace`: replace every non-overlapping occurrence of `pat`,
scanning left to right. -/
def strReplace (s pat rep : String) : String :=
  ⟨replGo pat.data rep.data s.data.length s.data⟩

/-- Fuel-indexed worker for `strSplitSep`, accumulating the current segment in
reverse. -/
def splitGo (sep : List Char) : Nat → List Char → List Char → List (List Char)
  | _, acc, [] => [acc.reverse]
  | 0, acc, s => [acc.reverse ++ s]
  | Nat.succ fuel, acc, c :: rest =>
      if sep.isPrefixOf (c :: rest) then
        acc.reverse :: splitGo sep fuel [] ((c :: rest).drop sep.length)
      else splitGo sep fuel (c :: acc) rest

/-- Rust `str::split` with a non-empty string separator (used with `" && "`). -/
def strSplitSep (s sep : String) : List String :=
  (splitGo sep.data s.data.length [] s.data).map (fun l => String.mk l)

/-- Worker for `splitWhitespace`, accumulating the current token in reverse. -/
def wsTokGo : List Char → List Char → List (List Char)
  | cur, [] => if cur.isEmpty then [] else [cur.reverse]
  | cur, c :: rest =>
      if wsChar c then
        if cur.isEmpty then wsTokGo [] rest else cur.reverse :: wsTokGo [] rest
      else wsTokGo (c :: cur) rest

/-- Rust `str::split_whitespace`: maximal non-empty runs of non-whitespace. -/
def splitWhitespace (s : String) : List String :=
  (wsTokGo [] s.data).map (fun l => String.mk l)

/-- Worker for `rustLines`: split at every newline, keeping empty segments. -/
def splitNl : List Char → List Char → List (List Char)
  | acc, [] => [acc.reverse]
  | acc, c :: rest =>
      if c = '\n' then acc.reverse :: splitNl [] rest else splitNl (c :: acc) rest

/-- Strip one trailing carriage return, as Rust `str::lines` does per line. -/
def dropCr (l : List Char) : List Char :=
  if l.getLast? = some '\r' then l.dropLast else l

/-- Rust `str::lines`: newline-terminated or newline-separated lines, without a
trailing empty line for a trailing newline. -/
def rustLines (s : String) : List String :=
  let segs := splitNl [] s.data
  let segs := if segs.getLast? = some [] then segs.dropLast else segs
  segs.map (fun l => String.mk (dropCr l))

/-- Modelled from the spec: the expression evaluator is the external Rhai
engine (`rhai::Engine`, main.rs:357), with the predicate
`option(name) := options.contains(name)` registered at main.rs:361-364 and the
expression grammar of spec §4.1.  Only the `option("name")` form, the one the
spec's concrete scenarios use, is interpreted here; anything else is `false`. -/
def evalOption (options : List String) (cond : String) : Bool :=
  let c := strTrim cond
  if strStartsWith c "option(\"" && strEndsWith c "\")" then
    options.contains (strDropRight (strDrop c (strLen "option(\"")) (strLen "\")"))
  else false

/-- Total evaluator built from `evalOption` (never an evaluation failure). -/
def evOpt (options : List String) : String → Option Bool :=
  fun cond => some (evalOption options cond)

/-- `BlockKind` (main.rs:308-315): `Root` always emits, `IfElse current any`
records the current branch and whether any earlier branch of the chain was
included. -/
inductive BlockKind
  | Root
  | IfElse (current any : Bool)
deriving DecidableEq

/-- `BlockKind::include_line` (main.rs:318-323). -/
def BlockKind.include_line : BlockKind → Bool
  | .Root => true
  | .IfElse current any => current && !any

/-- `BlockKind::new_if` (main.rs:325-327). -/
def BlockKind.new_if (current : Bool) : BlockKind :=
  .IfElse current false

/-- `BlockKind::into_else_if` (main.rs:329-334); `none` models the
`ELIF without IF` panic on `Root`. -/
def BlockKind.into_else_if : BlockKind → Bool → Option BlockKind
  | .IfElse previous any, condition => some (.IfElse condition (any || previous))
  | .Root, _ => none

/-- `BlockKind::into_else` (main.rs:336-341); `none` models the
`ELSE without IF` panic on `Root`. -/
def BlockKind.into_else : BlockKind → Option BlockKind
  | .IfElse previous any => some (.IfElse (!any) (any || previous))
  | .Root => none

/-- Syntactic classification of a trimmed line by the non-file-level directive
tests of `process_file`, in source order: the `#[rustfmt::skip]` test
(main.rs:396), `REPLACE` (main.rs:402-404), `IF` (main.rs:427-432),
`ELIF` (main.rs:443-448), `ELSE` (main.rs:459), `ENDIF` (main.rs:462). -/
inductive DirectiveKind
  | rustfmtSkip
  | replaceD (what : String)
  | ifD (cond : String)
  | elifD (cond : String)
  | elseD
  | endifD
  | content
deriving DecidableEq

/-- The non-file-level directive tests of `process_file` in source order. -/
def restKind (trimmed : String) : DirectiveKind :=
  if trimmed = "#[rustfmt::skip]" then .rustfmtSkip
  else if strStartsWith trimmed "#REPLACE " then .replaceD (strDrop trimmed (strLen "#REPLACE "))
  else if strStartsWith trimmed "//REPLACE " then .replaceD (strDrop trimmed (strLen "//REPLACE "))
  else if strStartsWith trimmed "#IF " then .ifD (strDrop trimmed (strLen "#IF "))
  else if strStartsWith trimmed "//IF " then .ifD (strDrop trimmed (strLen "//IF "))
  else if strStartsWith trimmed "#ELIF " then .elifD (strDrop trimmed (strLen "#ELIF "))
  else if strStartsWith trimmed "//ELIF " then .elifD (strDrop trimmed (strLen "//ELIF "))
  else if strStartsWith trimmed "#ELSE" then .elseD
  else if strStartsWith trimmed "//ELSE" then .elseD
  else if strStartsWith trimmed "#ENDIF" then .endifD
  else if strStartsWith trimmed "//ENDIF" then .endifD
  else .content

/-- Classification including the file-level directives, which are recognized
only while `file_directives` holds (main.rs:373-388). -/
inductive TopKind
  | includeFileD (cond : String)
  | includeAsD (path : String)
  | other (k : DirectiveKind)
deriving DecidableEq

/-- The full line classification of `process_file`: file-level directive tests
(main.rs:375-384, gated on `file_directives`), then the rest. -/
def lineKind (file_directives : Bool) (trimmed : String) : TopKind :=
  if file_directives && strStartsWith trimmed "//INCLUDEFILE " then
    .includeFileD (strDrop trimmed (strLen "//INCLUDEFILE "))
  else if file_directives && strStartsWith trimmed "#INCLUDEFILE " then
    .includeFileD (strDrop trimmed (strLen "#INCLUDEFILE "))
  else if file_directives && strStartsWith trimmed "//INCLUDE_AS " then
    .includeAsD (strDrop trimmed (strLen "//INCLUDE_AS "))
  else if file_directives && strStartsWith trimmed "#INCLUDE_AS " then
    .includeAsD (strDrop trimmed (strLen "#INCLUDE_AS "))
  else .other (restKind trimmed)

/-- A line that cannot be taken for a file-level directive, whatever the
`file_directives` flag. -/
def notFileDirective (trimmed : String) : Bool :=
  !(strStartsWith trimmed "//INCLUDEFILE ") && !(strStartsWith trimmed "#INCLUDEFILE ") &&
  !(strStartsWith trimmed "//INCLUDE_AS ") && !(strStartsWith trimmed "#INCLUDE_AS ")

theorem lineKind_other {trimmed : String} (h : notFileDirective trimmed = true)
    (fd : Bool) : lineKind fd trimmed = .other (restKind trimmed) := by
  simp only [notFileDirective, Bool.and_eq_true, Bool.not_eq_true'] at h
  obtain ⟨⟨⟨h1, h2⟩, h3⟩, h4⟩ := h
  simp [lineKind, h1, h2, h3, h4]

/-- The `REPLACE` payload parser (main.rs:406-421): split on `" && "`, take
the first two whitespace-separated tokens of each pair as pattern and variable
name, silently dropping pairs whose variable is not in the table. -/
def parseReplace (vars : List (String × String)) (what : String) :
    List (String × String) :=
  (strSplitSep what " && ").filterMap fun pair =>
    match splitWhitespace pair with
    | pat :: var_name :: _ =>
        match vars.find? (fun kv => kv.1 == var_name) with
        | some kv => some (pat, kv.2)
        | none => none
    | _ => none

/-- Apply pending replacement pairs to a line (main.rs:480-484): literal
substring substitution of each pattern in order. -/
def applyRepl (replacements : List (String × String)) (line : String) : String :=
  replacements.foldl (fun l pv => strReplace l pv.1 pv.2) line

/-- `applyRepl` lifted to the optional pending-replacement state. -/
def applyReplOpt : Option (List (String × String)) → String → String
  | some replacements, line => applyRepl replacements line
  | none, line => line

/-- The mutable state of the `process_file` loop: the output built so far
(`res`, main.rs:350), the pending replacement (`replace`, main.rs:352), the
conditional stack (`include`, main.rs:353; renamed since `include` is a Lean
keyword, head of the list is the top of the stack), the `file_directives` and
`include_file` flags (main.rs:354/366) and the output path (main.rs:348). -/
structure PState where
  res : String
  replace : Option (List (String × String))
  includeStack : List BlockKind
  file_directives : Bool
  include_file : Bool
  file_path : String
deriving DecidableEq

/-- The panics of `process_file`: a failed expression evaluation
(`engine.eval::<bool>(cond).unwrap()`, main.rs:379/437/453), the
`ELIF without IF` and `ELSE without IF` panics (main.rs:331/338), the
`ENDIF without IF in file:line` assertion (main.rs:464-467) and the
unreachable pop of an empty stack. -/
inductive PError
  | invalidExpression (cond : String)
  | stackUnderflow
  | elifWithoutIf
  | elseWithoutIf
  | endifWithoutIf (file_path : String) (line_no : Nat)
deriving DecidableEq

/-- The spec's `UnbalancedDirective` class: every template-integrity failure
except a failed expression evaluation. -/
def PError.isUnbalancedDirective : PError → Bool
  | .invalidExpression _ => false
  | _ => true

/-- Result of one loop iteration: `skip` models `return None` (main.rs:390),
`cont` continues with the updated state. -/
inductive StepRes
  | skip
  | cont (st : PState)
deriving DecidableEq

/-- One iteration of the `process_file` loop (main.rs:368-491) on one line. -/
def processLine (ev : String → Option Bool) (vars : List (String × String))
    (st : PState) (line_no : Nat) (line : String) : Except PError StepRes :=
  let trimmed := strTrim line
  match lineKind st.file_directives trimmed with
  | .includeFileD cond =>
      match ev cond with
      | none => .error (.invalidExpression cond)
      | some b => .ok (.cont { st with include_file := b })
  | .includeAsD p => .ok (.cont { st with file_path := strTrim p })
  | .other k =>
      if !st.include_file then .ok .skip
      else
        let st1 := { st with file_directives := false }
        match k with
        | .rustfmtSkip => .ok (.cont st1)
        | .replaceD what =>
            let replacements := parseReplace vars what
            .ok (.cont (if replacements.isEmpty then st1
                        else { st1 with replace := some replacements }))
        | .ifD cond =>
            match st1.includeStack with
            | [] => .error .stackUnderflow
            | last :: _ =>
                if last.include_line then
                  match ev cond with
                  | none => .error (.invalidExpression cond)
                  | some b =>
                      .ok (.cont { st1 with
                        includeStack := BlockKind.new_if b :: st1.includeStack })
                else
                  .ok (.cont { st1 with
                    includeStack := BlockKind.new_if false :: st1.includeStack })
        | .elifD cond =>
            match st1.includeStack with
            | [] => .error .stackUnderflow
            | last :: restStack =>
                let evaluated : Except PError Bool :=
                  match last with
                  | .IfElse false false =>
                      match ev cond with
                      | none => .error (.invalidExpression cond)
                      | some b => .ok b
                  | _ => .ok false
                match evaluated with
                | .error e => .error e
                | .ok current =>
                    match last.into_else_if current with
                    | none => .error .elifWithoutIf
                    | some fr => .ok (.cont { st1 with includeStack := fr :: restStack })
        | .elseD =>
            match st1.includeStack with
            | [] => .error .stackUnderflow
            | last :: restStack =>
                match last.into_else with
                | none => .error .elseWithoutIf
                | some fr => .ok (.cont { st1 with includeStack := fr :: restStack })
        | .endifD =>
            match st1.includeStack with
            | BlockKind.IfElse _ _ :: restStack =>
                .ok (.cont { st1 with includeStack := restStack })
            | _ => .error (.endifWithoutIf st1.file_path line_no)
        | .content =>
            if st1.includeStack.all BlockKind.include_line then
              let line1 := if strStartsWith trimmed "#+" then strReplace line "#+" "" else line
              let line2 := if strStartsWith trimmed "//+" then strReplace line1 "//+" "" else line1
              let line3 := applyReplOpt st1.replace line2
              .ok (.cont { st1 with res := st1.res ++ line3 ++ "\n", replace := none })
            else .ok (.cont st1)

/-- The `process_file` loop over the numbered lines (main.rs:368): the result
is `none` for a skipped file and otherwise the expanded text together with the
(possibly `INCLUDE_AS`-overridden) output path. -/
def process_lines (ev : String → Option Bool) (vars : List (String × String)) :
    List String → Nat → PState → Except PError (Option (String × String))
  | [], _, st => .ok (some (st.res, st.file_path))
  | line :: rest, line_no, st =>
      match processLine ev vars st line_no line with
      | .error e => .error e
      | .ok .skip => .ok none
      | .ok (.cont st') => process_lines ev vars rest (line_no + 1) st'

/-- The initial loop state (main.rs:350-366). -/
def initState (file_path : String) : PState :=
  { res := "", replace := none, includeStack := [BlockKind.Root],
    file_directives := true, include_file := true, file_path := file_path }

/-- `process_file` on an already-split line list. -/
def process_file_lines (ev : String → Option Bool) (vars : List (String × String))
    (lines : List String) (file_path : String) : Except PError (Option (String × String)) :=
  process_lines ev vars lines 1 (initState file_path)

/-- `process_file` (main.rs:344-494) on the raw file contents. -/
def process_file (ev : String → Option Bool) (contents : String)
    (vars : List (String × String)) (file_path : String) :
    Except PError (Option (String × String)) :=
  process_file_lines ev vars (rustLines contents) file_path

/-- An option catalog entry.  The field types live in `esp_generate::template`
(not among these sources); the fields and their meaning follow spec §3:
`chips` is `applicable_platforms` (empty = all platforms), `requires` and
`disabled_by` are option-name lists and `selection_group` is empty for
ungrouped options.  Chips are identified by name strings. -/
structure GeneratorOption where
  name : String
  chips : List String
  requires : List String
  disabled_by : List String
  selection_group : String
deriving DecidableEq

/-- The violations logged by `process_options` (main.rs:496-598), named by the
spec §7 taxonomy.  `UnmetRequirement` carries the `requires` list printed at
main.rs:558-563, `DisabledByConflict` one disabling option (main.rs:565-567),
`MutuallyExclusiveConflict` the colliding entries of one selection group
(main.rs:579-591). -/
inductive Violation
  | UnknownOption (name : String)
  | UnsupportedForPlatform (name : String) (chip : String)
  | UnmetRequirement (name : String) (missing : List String)
  | DisabledByConflict (name : String) (disabled : String)
  | MutuallyExclusiveConflict (entries : List String)
deriving DecidableEq

/-- Modelled from the spec: `ActiveConfiguration::is_option_active` lives in
`esp_generate::config`, which is not among these sources; spec §4.4 defines
activity as every `requires` entry being present in the selection and no
`disabled_by` entry being present. -/
def is_option_active (selected : List String) (item : GeneratorOption) : Bool :=
  item.requires.all (fun r => selected.contains r) &&
  item.disabled_by.all (fun d => !(selected.contains d))

/-- The violations produced for one selected name by the per-option loop of
`process_options` (main.rs:510-577): no entry with the name gives
`UnknownOption` (main.rs:570-572), entries none of which is applicable to the
chip give `UnsupportedForPlatform` (main.rs:573-576), and each applicable but
inactive entry logs its unmet requires (main.rs:554-563, the `requires` of the
spec-modelled `Relationships`, which prints the entry's `requires` list) and
its present disabling options (main.rs:565-567). -/
def option_violations (all_options : List GeneratorOption) (selected : List String)
    (chip : String) (opt : String) : List Violation :=
  let matching := all_options.filter (fun item => item.name == opt)
  if matching.isEmpty then [.UnknownOption opt]
  else
    let applicable := matching.filter (fun item => item.chips.contains chip || item.chips.isEmpty)
    if applicable.isEmpty then [.UnsupportedForPlatform opt chip]
    else
      applicable.foldl (fun acc item =>
        if is_option_active selected item then acc
        else
          acc ++
          (if item.requires.all (fun r => selected.contains r) then []
           else [Violation.UnmetRequirement item.name item.requires]) ++
          (item.disabled_by.filter (fun d => selected.contains d)).map
            (Violation.DisabledByConflict item.name)) []

/-- Record `opt` under group `g`, mirroring
`same_selection_group.entry(group).or_default()` followed by the
guarded push (main.rs:533-541): the entry list never records a name twice. -/
def record_group : List (String × List String) → String → String → List (String × List String)
  | [], g, opt => [(g, [opt])]
  | e :: rest, g, opt =>
      if e.1 == g then
        (if e.2.contains opt then e :: rest else (e.1, e.2 ++ [opt]) :: rest)
      else e :: record_group rest g opt

/-- The names recorded for a group. -/
def lookupNames : List (String × List String) → String → List String
  | [], _ => []
  | e :: rest, g => if e.1 == g then e.2 else lookupNames rest g

/-- The group-recording effect of one catalog entry while handling one
selected name: an applicable (main.rs:520-522) and active (main.rs:527) entry
with a non-empty `selection_group` (main.rs:533) records the name under its
group. -/
def group_item_step (selected : List String) (chip : String) (opt : String)
    (gs : List (String × List String)) (item : GeneratorOption) :
    List (String × List String) :=
  if (item.chips.contains chip || item.chips.isEmpty) &&
     is_option_active selected item && !(item.selection_group == "") then
    record_group gs item.selection_group opt
  else gs

/-- The group-recording effect of one selected name: every catalog entry with
that name is considered in order (main.rs:514). -/
def group_step (all_options : List GeneratorOption) (selected : List String) (chip : String)
    (groups : List (String × List String)) (opt : String) : List (String × List String) :=
  (all_options.filter (fun item => item.name == opt)).foldl
    (group_item_step selected chip opt) groups

/-- The `same_selection_group` map accumulated over the selection
(main.rs:508, 527-541).  The source's `HashMap` iteration order is abstracted
to insertion order. -/
def collect_groups (all_options : List GeneratorOption) (selected : List String)
    (chip : String) : List (String × List String) :=
  selected.foldl (group_step all_options selected chip) []

/-- `process_options` (main.rs:496-598) as the list of logged violations, in
logging order: the per-selection-entry violations, then one
`MutuallyExclusiveConflict` per selection group with more than one recorded
name (main.rs:579-591).  The source's `success` flag is false, and the
function bails with `Invalid options provided`, exactly when this list is
non-empty. -/
def process_options (all_options : List GeneratorOption) (selected : List String)
    (chip : String) : List Violation :=
  (selected.foldr (fun opt acc => option_violations all_options selected chip opt ++ acc) []) ++
  ((collect_groups all_options selected chip).filterMap fun e =>
    if 1 < e.2.length then some (Violation.MutuallyExclusiveConflict e.2) else none)

theorem str_append_assoc (a b c : String) : a ++ b ++ c = a ++ (b ++ c) := by
  apply String.ext
  simp [String.data_append]

theorem str_append_empty (a : String) : a ++ "" = a := by
  apply String.ext
  simp [String.data_append]

theorem str_empty_append (a : String) : "" ++ a = a := by
  apply String.ext
  simp [String.data_append]

/-- Join lines the way `process_file` emits them: each followed by `'\n'`
(main.rs:486-487). -/
def joinNL : List String → String
  | [] => ""
  | l :: ls => l ++ "\n" ++ joinNL ls

/-- An ordinary content line: classified as content whatever the
`file_directives` flag, and not escape-prefixed, so it is emitted verbatim
(up to a pending replacement). -/
def plainContent (l : String) : Prop :=
  notFileDirective (strTrim l) = true ∧ restKind (strTrim l) = .content ∧
  strStartsWith (strTrim l) "#+" = false ∧ strStartsWith (strTrim l) "//+" = false

instance (l : String) : Decidable (plainContent l) := by
  unfold plainContent; exact inferInstance

theorem processLine_plain_emit (ev : String → Option Bool) (vars : List (String × String))
    (st : PState) (n : Nat) (l : String) (rp : Option (List (String × String)))
    (hl : plainContent l) (hif : st.include_file = true) (hrp : st.replace = rp)
    (hstk : st.includeStack.all BlockKind.include_line = true) :
    processLine ev vars st n l =
      .ok (.cont { st with file_directives := false, replace := none,
                           res := st.res ++ applyReplOpt rp l ++ "\n" }) := by
  obtain ⟨hnf, hk, h1, h2⟩ := hl
  simp [processLine, lineKind_other hnf, hk, hif, hrp, hstk, h1, h2]

theorem processLine_plain_noemit (ev : String → Option Bool) (vars : List (String × String))
    (st : PState) (n : Nat) (l : String)
    (hl : plainContent l) (hif : st.include_file = true)
    (hstk : st.includeStack.all BlockKind.include_line = false) :
    processLine ev vars st n l = .ok (.cont { st with file_directives := false }) := by
  obtain ⟨hnf, hk, h1, h2⟩ := hl
  simp [processLine, lineKind_other hnf, hk, hif, hstk]

theorem processLine_skipped (ev : String → Option Bool) (vars : List (String × String))
    (st : PState) (n : Nat) (l : String)
    (hnf : notFileDirective (strTrim l) = true) (hif : st.include_file = false) :
    processLine ev vars st n l = .ok .skip := by
  simp [processLine, lineKind_other hnf, hif]

theorem processLine_fd_irrel (ev : String → Option Bool) (vars : List (String × String))
    (st : PState) (n : Nat) (l : String)
    (hnf : notFileDirective (strTrim l) = true) :
    processLine ev vars st n l = processLine ev vars { st with file_directives := false } n l := by
  simp [processLine, lineKind_other hnf]

theorem process_lines_fd_irrel (ev : String → Option Bool) (vars : List (String × String))
    (l : String) (rest : List String) (n : Nat) (st : PState)
    (hnf : notFileDirective (strTrim l) = true) :
    process_lines ev vars (l :: rest) n st =
      process_lines ev vars (l :: rest) n { st with file_directives := false } := by
  simp only [process_lines]
  rw [processLine_fd_irrel ev vars st n l hnf]

theorem processLine_ifD_eval (ev : String → Option Bool) (vars : List (String × String))
    (st : PState) (n : Nat) (l c : String) (last : BlockKind) (tl : List BlockKind) (b : Bool)
    (hnf : notFileDirective (strTrim l) = true) (hk : restKind (strTrim l) = .ifD c)
    (hif : st.include_file = true) (hstack : st.includeStack = last :: tl)
    (hemit : last.include_line = true) (hev : ev c = some b) :
    processLine ev vars st n l =
      .ok (.cont { st with file_directives := false,
                           includeStack := BlockKind.IfElse b false :: last :: tl }) := by
  simp [processLine, lineKind_other hnf, hk, hif, hstack, hemit, hev, BlockKind.new_if]

theorem processLine_elifD_eval (ev : String → Option Bool) (vars : List (String × String))
    (st : PState) (n : Nat) (l c : String) (tl : List BlockKind) (b : Bool)
    (hnf : notFileDirective (strTrim l) = true) (hk : restKind (strTrim l) = .elifD c)
    (hif : st.include_file = true)
    (hstack : st.includeStack = BlockKind.IfElse false false :: tl)
    (hev : ev c = some b) :
    processLine ev vars st n l =
      .ok (.cont { st with file_directives := false,
                           includeStack := BlockKind.IfElse b false :: tl }) := by
  simp [processLine, lineKind_other hnf, hk, hif, hstack, hev, BlockKind.into_else_if]

theorem processLine_elifD_noeval (ev : String → Option Bool) (vars : List (String × String))
    (st : PState) (n : Nat) (l c : String) (cur any : Bool) (tl : List BlockKind)
    (hnf : notFileDirective (strTrim l) = true) (hk : restKind (strTrim l) = .elifD c)
    (hif : st.include_file = true)
    (hstack : st.includeStack = BlockKind.IfElse cur any :: tl)
    (htaken : cur || any = true) :
    processLine ev vars st n l =
      .ok (.cont { st with file_directives := false,
                           includeStack := BlockKind.IfElse false (any || cur) :: tl }) := by
  rcases cur <;> rcases any <;>
    simp_all [processLine, lineKind_other hnf, hk, hif, hstack, BlockKind.into_else_if]

theorem processLine_elseD (ev : String → Option Bool) (vars : List (String × String))
    (st : PState) (n : Nat) (l : String) (cur any : Bool) (tl : List BlockKind)
    (hnf : notFileDirective (strTrim l) = true) (hk : restKind (strTrim l) = .elseD)
    (hif : st.include_file = true)
    (hstack : st.includeStack = BlockKind.IfElse cur any :: tl) :
    processLine ev vars st n l =
      .ok (.cont { st with file_directives := false,
                           includeStack := BlockKind.IfElse (!any) (any || cur) :: tl }) := by
  simp [processLine, lineKind_other hnf, hk, hif, hstack, BlockKind.into_else]

theorem processLine_endifD (ev : String → Option Bool) (vars : List (String × String))
    (st : PState) (n : Nat) (l : String) (cur any : Bool) (tl : List BlockKind)
    (hnf : notFileDirective (strTrim l) = true) (hk : restKind (strTrim l) = .endifD)
    (hif : st.include_file = true)
    (hstack : st.includeStack = BlockKind.IfElse cur any :: tl) :
    processLine ev vars st n l =
      .ok (.cont { st with file_directives := false, includeStack := tl }) := by
  simp [processLine, lineKind_other hnf, hk, hif, hstack]

theorem processLine_replaceD_set (ev : String → Option Bool) (vars : List (String × String))
    (st : PState) (n : Nat) (l w : String) (ps : List (String × String))
    (hnf : notFileDirective (strTrim l) = true) (hk : restKind (strTrim l) = .replaceD w)
    (hif : st.include_file = true)
    (hps : parseReplace vars w = ps) (hne : ps ≠ []) :
    processLine ev vars st n l =
      .ok (.cont { st with file_directives := false, replace := some ps }) := by
  simp [processLine, lineKind_other hnf, hk, hif, hps, List.isEmpty_iff, hne]

theorem processLine_replaceD_keep (ev : String → Option Bool) (vars : List (String × String))
    (st : PState) (n : Nat) (l w : String)
    (hnf : notFileDirective (strTrim l) = true) (hk : restKind (strTrim l) = .replaceD w)
    (hif : st.include_file = true)
    (hps : parseReplace vars w = []) :
    processLine ev vars st n l = .ok (.cont { st with file_directives := false }) := by
  simp [processLine, lineKind_other hnf, hk, hif, hps]

theorem process_lines_emit_chunk (ev : String → Option Bool) (vars : List (String × String))
    (ls : List String) : ∀ (rest : List String) (n : Nat) (st : PState),
    (∀ l ∈ ls, plainContent l) → st.include_file = true → st.replace = none →
    st.includeStack.all BlockKind.include_line = true → st.file_directives = false →
    process_lines ev vars (ls ++ rest) n st =
      process_lines ev vars rest (n + ls.length) { st with res := st.res ++ joinNL ls } := by
  induction ls with
  | nil =>
      intro rest n st _ _ _ _ _
      simp [joinNL, str_append_empty]
  | cons l ls ih =>
      intro rest n st hls hif hrp hstk hfd
      obtain ⟨res0, rp0, stk0, fd0, if0, fp0⟩ := st
      simp only at hif hrp hstk hfd
      subst hif hrp hfd
      rw [List.cons_append]
      simp only [process_lines]
      rw [processLine_plain_emit ev vars _ n l none (hls l (List.mem_cons_self l ls))
        rfl rfl (by assumption)]
      simp only [applyReplOpt]
      rw [ih rest (n + 1) _ (fun x hx => hls x (List.mem_cons_of_mem l hx)) rfl rfl
        (by assumption) rfl]
      simp [joinNL, str_append_assoc, Nat.add_assoc, Nat.add_comm 1]

theorem process_lines_skip_chunk (ev : String → Option Bool) (vars : List (String × String))
    (ls : List String) : ∀ (rest : List String) (n : Nat) (st : PState),
    (∀ l ∈ ls, plainContent l) → st.include_file = true →
    st.includeStack.all BlockKind.include_line = false → st.file_directives = false →
    process_lines ev vars (ls ++ rest) n st = process_lines ev vars rest (n + ls.length) st := by
  induction ls with
  | nil => intro rest n st _ _ _ _; simp
  | cons l ls ih =>
      intro rest n st hls hif hstk hfd
      obtain ⟨res0, rp0, stk0, fd0, if0, fp0⟩ := st
      simp only at hif hstk hfd
      subst hif hfd
      rw [List.cons_append]
      simp only [process_lines]
      rw [processLine_plain_noemit ev vars _ n l (hls l (List.mem_cons_self l ls))
        rfl (by assumption)]
      dsimp only
      rw [ih rest (n + 1) _ (fun x hx => hls x (List.mem_cons_of_mem l hx)) rfl
        (by assumption) rfl]
      simp [Nat.add_assoc, Nat.add_comm 1]

/-- One branch of an `IF`/`ELIF` chain: its directive line, the condition that
line carries, and the branch's content lines. -/
structure ChainBranch where
  dline : String
  cond : String
  body : List String

/-- The head branch: its line is an `IF` directive with condition `cond` and
its body is plain content. -/
def goodIfBranch (b : ChainBranch) : Prop :=
  notFileDirective (strTrim b.dline) = true ∧ restKind (strTrim b.dline) = .ifD b.cond ∧
  ∀ l ∈ b.body, plainContent l

/-- A follow-up branch: its line is an `ELIF` directive with condition `cond`
and its body is plain content. -/
def goodElifBranch (b : ChainBranch) : Prop :=
  notFileDirective (strTrim b.dline) = true ∧ restKind (strTrim b.dline) = .elifD b.cond ∧
  ∀ l ∈ b.body, plainContent l

/-- An `ELSE` directive line. -/
def goodElseLine (l : String) : Prop :=
  notFileDirective (strTrim l) = true ∧ restKind (strTrim l) = .elseD

/-- An `ENDIF` directive line. -/
def goodEndifLine (l : String) : Prop :=
  notFileDirective (strTrim l) = true ∧ restKind (strTrim l) = .endifD

instance (b : ChainBranch) : Decidable (goodIfBranch b) := by
  unfold goodIfBranch; exact inferInstance

instance (b : ChainBranch) : Decidable (goodElifBranch b) := by
  unfold goodElifBranch; exact inferInstance

instance (l : String) : Decidable (goodElseLine l) := by
  unfold goodElseLine; exact inferInstance

instance (l : String) : Decidable (goodEndifLine l) := by
  unfold goodEndifLine; exact inferInstance

/-- The lines of the `ELIF` branches of a chain. -/
def branchesLines : List ChainBranch → List String
  | [] => []
  | b :: rest => b.dline :: (b.body ++ branchesLines rest)

/-- The full line list of an `IF`/`ELIF`/`ELSE`/`ENDIF` chain. -/
def chainLines (hd : ChainBranch) (rest : List ChainBranch) (elseLine : String)
    (elseBody : List String) (endifLine : String) : List String :=
  hd.dline :: (hd.body ++ branchesLines rest ++ elseLine :: (elseBody ++ [endifLine]))

/-- The boolean a successful evaluation yields. -/
def evalB (ev : String → Option Bool) (c : String) : Bool := (ev c).getD false

/-- The output of the part of a chain after the head branch, given whether some
earlier branch of the chain already fired. -/
def tailOut (ev : String → Option Bool) : Bool → List ChainBranch → List String → String
  | true, [], _ => ""
  | false, [], elseBody => joinNL elseBody
  | true, _ :: rest, elseBody => tailOut ev true rest elseBody
  | false, b :: rest, elseBody =>
      if evalB ev b.cond then joinNL b.body ++ tailOut ev true rest elseBody
      else tailOut ev false rest elseBody

/-- The body of the first branch whose condition evaluates true, or the `ELSE`
body when none does. -/
def selectChain (ev : String → Option Bool) (hd : ChainBranch) (rest : List ChainBranch)
    (elseBody : List String) : List String :=
  match (hd :: rest).find? (fun b => evalB ev b.cond) with
  | some b => b.body
  | none => elseBody

theorem tailOut_taken (ev : String → Option Bool) (rest : List ChainBranch)
    (elseBody : List String) : tailOut ev true rest elseBody = "" := by
  induction rest <;> simp [tailOut, *]

theorem tailOut_select (ev : String → Option Bool) (branches : List ChainBranch)
    (elseBody : List String) :
    tailOut ev false branches elseBody =
      joinNL (match branches.find? (fun b => evalB ev b.cond) with
              | some b => b.body
              | none => elseBody) := by
  induction branches with
  | nil => simp [tailOut]
  | cons b rest ih =>
      simp only [List.find?, tailOut]
      by_cases h : evalB ev b.cond = true
      · simp [h, tailOut_taken, str_append_empty]
      · simp only [Bool.not_eq_true] at h
        simp [h, ih]

set_option maxHeartbeats 1000000 in
theorem chain_tail_run (ev : String → Option Bool) (vars : List (String × String))
    (rest : List ChainBranch) :
    ∀ (elseLine : String) (elseBody : List String) (endifLine : String)
      (after : List String) (n : Nat) (st : PState) (cur any : Bool) (tail0 : List BlockKind),
    (∀ b ∈ rest, goodElifBranch b) → goodElseLine elseLine →
    (∀ l ∈ elseBody, plainContent l) → goodEndifLine endifLine →
    (∀ b ∈ rest, (ev b.cond).isSome) →
    st.includeStack = BlockKind.IfElse cur any :: tail0 →
    tail0.all BlockKind.include_line = true →
    st.include_file = true → st.replace = none → st.file_directives = false →
    process_lines ev vars (branchesLines rest ++ elseLine :: (elseBody ++ endifLine :: after)) n st =
      process_lines ev vars after (n + (branchesLines rest).length + elseBody.length + 2)
        { st with includeStack := tail0,
                  res := st.res ++ tailOut ev (any || cur) rest elseBody } := by
  induction rest with
  | nil =>
      intro elseLine elseBody endifLine after n st cur any tail0
        hrest helse helseB hendif hevs hstack htail hif hrp hfd
      obtain ⟨res0, rp0, stk0, fd0, if0, fp0⟩ := st
      simp only at hstack hif hrp hfd
      subst hstack hif hrp hfd
      obtain ⟨hnfE, hkE⟩ := helse
      obtain ⟨hnfD, hkD⟩ := hendif
      simp only [branchesLines, List.nil_append, List.length_nil]
      simp only [process_lines]
      rw [processLine_elseD ev vars _ n elseLine cur any tail0 hnfE hkE rfl rfl]
      dsimp only
      by_cases h : (any || cur) = true
      · rw [process_lines_skip_chunk ev vars elseBody (endifLine :: after) (n + 1) _ helseB rfl
          (by simp [List.all_cons, BlockKind.include_line, h]) rfl]
        simp only [process_lines]
        rw [processLine_endifD ev vars _ _ endifLine (!any) (any || cur) tail0 hnfD hkD rfl rfl]
        dsimp only
        rw [h, tailOut_taken, str_append_empty]
        have hn : n + 1 + elseBody.length + 1 = n + 0 + elseBody.length + 2 := by omega
        rw [hn]
      · simp only [Bool.not_eq_true, Bool.or_eq_false_iff] at h
        obtain ⟨hany, hcur⟩ := h
        subst hany hcur
        rw [process_lines_emit_chunk ev vars elseBody (endifLine :: after) (n + 1) _ helseB rfl rfl
          (by simp [List.all_cons, BlockKind.include_line, htail]) rfl]
        simp only [process_lines]
        rw [processLine_endifD ev vars _ _ endifLine true false tail0 hnfD hkD rfl rfl]
        dsimp only
        simp only [Bool.or_false, tailOut]
        have hn : n + 1 + elseBody.length + 1 = n + 0 + elseBody.length + 2 := by omega
        rw [hn]
  | cons b rest' ih =>
      intro elseLine elseBody endifLine after n st cur any tail0
        hrest helse helseB hendif hevs hstack htail hif hrp hfd
      obtain ⟨res0, rp0, stk0, fd0, if0, fp0⟩ := st
      simp only at hstack hif hrp hfd
      subst hstack hif hrp hfd
      obtain ⟨hnfB, hkB, hbodyB⟩ := hrest b (List.mem_cons_self b rest')
      have hrest' : ∀ x ∈ rest', goodElifBranch x :=
        fun x hx => hrest x (List.mem_cons_of_mem b hx)
      have hevs' : ∀ x ∈ rest', (ev x.cond).isSome :=
        fun x hx => hevs x (List.mem_cons_of_mem b hx)
      simp only [branchesLines, List.cons_append, List.append_assoc]
      simp only [process_lines]
      by_cases h : (any || cur) = true
      · rw [processLine_elifD_noeval ev vars _ n b.dline b.cond cur any tail0 hnfB hkB rfl rfl
          (by rcases cur <;> rcases any <;> simp_all)]
        dsimp only
        rw [process_lines_skip_chunk ev vars b.body _ (n + 1) _ hbodyB rfl
          (by simp [List.all_cons, BlockKind.include_line]) rfl]
        rw [ih elseLine elseBody endifLine after (n + 1 + b.body.length) _ false (any || cur) tail0
          hrest' helse helseB hendif hevs' rfl htail rfl rfl rfl]
        dsimp only
        rw [h]
        simp only [Bool.or_false, tailOut_taken, str_append_empty, tailOut]
        have hn : n + 1 + b.body.length + (branchesLines rest').length + elseBody.length + 2 =
            n + (b.dline :: (b.body ++ branchesLines rest')).length + elseBody.length + 2 := by
          simp [List.length_cons, List.length_append]; omega
        rw [hn]
      · simp only [Bool.not_eq_true, Bool.or_eq_false_iff] at h
        obtain ⟨hany, hcur⟩ := h
        subst hany hcur
        obtain ⟨r, hr⟩ := Option.isSome_iff_exists.mp (hevs b (List.mem_cons_self b rest'))
        rw [processLine_elifD_eval ev vars _ n b.dline b.cond tail0 r hnfB hkB rfl rfl hr]
        dsimp only
        rcases r with _ | _
        · rw [process_lines_skip_chunk ev vars b.body _ (n + 1) _ hbodyB rfl
            (by simp [List.all_cons, BlockKind.include_line]) rfl]
          rw [ih elseLine elseBody endifLine after (n + 1 + b.body.length) _ false false tail0
            hrest' helse helseB hendif hevs' rfl htail rfl rfl rfl]
          dsimp only
          simp only [Bool.or_false, tailOut, evalB, hr, Option.getD_some, if_neg Bool.false_ne_true]
          have hn : n + 1 + b.body.length + (branchesLines rest').length + elseBody.length + 2 =
              n + (b.dline :: (b.body ++ branchesLines rest')).length + elseBody.length + 2 := by
            simp [List.length_cons, List.length_append]; omega
          rw [hn]
        · rw [process_lines_emit_chunk ev vars b.body _ (n + 1) _ hbodyB rfl rfl
            (by simp [List.all_cons, BlockKind.include_line, htail]) rfl]
          rw [ih elseLine elseBody endifLine after (n + 1 + b.body.length) _ true false tail0
            hrest' helse helseB hendif hevs' rfl htail rfl rfl rfl]
          dsimp only
          simp only [Bool.or_false, Bool.or_true, tailOut, evalB, hr, Option.getD_some, if_pos rfl,
            tailOut_taken, applyReplOpt]
          have hn : n + 1 + b.body.length + (branchesLines rest').length + elseBody.length + 2 =
              n + (b.dline :: (b.body ++ branchesLines rest')).length + elseBody.length + 2 := by
            simp [List.length_cons, List.length_append]; omega
          rw [hn]
          simp [str_append_assoc]

theorem process_lines_plain_all (ev : String → Option Bool) (vars : List (String × String))
    (ls : List String) (n : Nat) (st : PState)
    (hls : ∀ l ∈ ls, plainContent l) (hif : st.include_file = true) (hrp : st.replace = none)
    (hstk : st.includeStack.all BlockKind.include_line = true) (hfd : st.file_directives = false) :
    process_lines ev vars ls n st = .ok (some (st.res ++ joinNL ls, st.file_path)) := by
  have h := process_lines_emit_chunk ev vars ls [] n st hls hif hrp hstk hfd
  rw [List.append_nil] at h
  rw [h]
  simp [process_lines]

theorem process_lines_fd_norm (ev : String → Option Bool) (vars : List (String × String))
    (ls : List String) (n : Nat) (st : PState)
    (h : ∀ l ∈ ls.head?, notFileDirective (strTrim l) = true) :
    process_lines ev vars ls n st = process_lines ev vars ls n { st with file_directives := false } := by
  cases ls with
  | nil => simp [process_lines]
  | cons l r => exact process_lines_fd_irrel ev vars l r n st (h l rfl)

theorem c1_core (ev : String → Option Bool) (vars : List (String × String))
    (pre post elseBody : List String) (hd : ChainBranch) (rest : List ChainBranch)
    (elseLine endifLine : String) (n : Nat) (st : PState)
    (hpre : ∀ l ∈ pre, plainContent l) (hpost : ∀ l ∈ post, plainContent l)
    (hhd : goodIfBranch hd) (hrest : ∀ b ∈ rest, goodElifBranch b)
    (helse : goodElseLine elseLine) (helseB : ∀ l ∈ elseBody, plainContent l)
    (hendif : goodEndifLine endifLine)
    (hevhd : (ev hd.cond).isSome) (hevs : ∀ b ∈ rest, (ev b.cond).isSome)
    (hstack : st.includeStack = [BlockKind.Root]) (hif : st.include_file = true)
    (hrp : st.replace = none) (hfd : st.file_directives = false) :
    process_lines ev vars (pre ++ chainLines hd rest elseLine elseBody endifLine ++ post) n st =
      .ok (some (st.res ++ joinNL pre ++ joinNL (selectChain ev hd rest elseBody) ++ joinNL post,
        st.file_path)) := by
  obtain ⟨res0, rp0, stk0, fd0, if0, fp0⟩ := st
  simp only at hstack hif hrp hfd
  subst hstack hif hrp hfd
  obtain ⟨hnfH, hkH, hbodyH⟩ := hhd
  simp only [List.append_assoc]
  rw [process_lines_emit_chunk ev vars pre _ n
    ⟨res0, none, [BlockKind.Root], false, true, fp0⟩ hpre rfl rfl rfl rfl]
  dsimp only
  simp only [chainLines, List.cons_append, List.append_assoc]
  simp only [process_lines]
  obtain ⟨r, hr⟩ := Option.isSome_iff_exists.mp hevhd
  rw [processLine_ifD_eval ev vars
    ⟨res0 ++ joinNL pre, none, [BlockKind.Root], false, true, fp0⟩ _ hd.dline hd.cond
    BlockKind.Root [] r hnfH hkH rfl rfl rfl hr]
  dsimp only
  rcases r with _ | _
  · rw [process_lines_skip_chunk ev vars hd.body _ _
      ⟨res0 ++ joinNL pre, none, [BlockKind.IfElse false false, BlockKind.Root], false, true, fp0⟩
      hbodyH rfl rfl rfl]
    simp only [List.nil_append]
    rw [chain_tail_run ev vars rest elseLine elseBody endifLine post _
      ⟨res0 ++ joinNL pre, none, [BlockKind.IfElse false false, BlockKind.Root], false, true, fp0⟩
      false false [BlockKind.Root] hrest helse helseB hendif hevs rfl rfl rfl rfl rfl]
    dsimp only
    rw [process_lines_plain_all ev vars post _
      ⟨res0 ++ joinNL pre ++ tailOut ev (false || false) rest elseBody, none, [BlockKind.Root],
        false, true, fp0⟩ hpost rfl rfl rfl rfl]
    simp only [Bool.or_false, tailOut_select]
    rw [show selectChain ev hd rest elseBody =
      (match List.find? (fun b => evalB ev b.cond) rest with
       | some b => b.body
       | none => elseBody) by
      simp [selectChain, List.find?, evalB, hr]]
  · rw [process_lines_emit_chunk ev vars hd.body _ _
      ⟨res0 ++ joinNL pre, none, [BlockKind.IfElse true false, BlockKind.Root], false, true, fp0⟩
      hbodyH rfl rfl rfl rfl]
    dsimp only
    simp only [List.nil_append]
    rw [chain_tail_run ev vars rest elseLine elseBody endifLine post _
      ⟨res0 ++ joinNL pre ++ joinNL hd.body, none,
        [BlockKind.IfElse true false, BlockKind.Root], false, true, fp0⟩
      true false [BlockKind.Root] hrest helse helseB hendif hevs rfl rfl rfl rfl rfl]
    dsimp only
    rw [process_lines_plain_all ev vars post _
      ⟨res0 ++ joinNL pre ++ joinNL hd.body ++ tailOut ev (false || true) rest elseBody, none,
        [BlockKind.Root], false, true, fp0⟩ hpost rfl rfl rfl rfl]
    simp only [Bool.or_true, tailOut_taken, str_append_empty]
    rw [show selectChain ev hd rest elseBody = hd.body by simp [selectChain, List.find?, evalB, hr]]

/-- C1: for a template file made of plain content lines surrounding one
`IF`/`ELIF`/`ELSE`/`ENDIF` chain whose conditions all evaluate, exactly one
branch's lines are emitted — the first branch whose condition evaluates true,
or the `ELSE` branch when none does — while the content lines outside the
conditional always appear, in order, around it. -/
theorem c1_chain_single_branch (ev : String → Option Bool) (vars : List (String × String))
    (fp : String) (pre post elseBody : List String) (hd : ChainBranch)
    (rest : List ChainBranch) (elseLine endifLine : String)
    (hpre : ∀ l ∈ pre, plainContent l) (hpost : ∀ l ∈ post, plainContent l)
    (hhd : goodIfBranch hd) (hrest : ∀ b ∈ rest, goodElifBranch b)
    (helse : goodElseLine elseLine) (helseB : ∀ l ∈ elseBody, plainContent l)
    (hendif : goodEndifLine endifLine)
    (hevhd : (ev hd.cond).isSome) (hevs : ∀ b ∈ rest, (ev b.cond).isSome) :
    process_file_lines ev vars (pre ++ chainLines hd rest elseLine elseBody endifLine ++ post) fp =
      .ok (some (joinNL pre ++ joinNL (selectChain ev hd rest elseBody) ++ joinNL post, fp)) := by
  unfold process_file_lines
  have hh : ∀ l ∈ (pre ++ chainLines hd rest elseLine elseBody endifLine ++ post).head?,
      notFileDirective (strTrim l) = true := by
    cases pre with
    | nil =>
        intro l hl
        simp only [chainLines, List.nil_append, List.cons_append, List.head?_cons,
          Option.mem_def, Option.some.injEq] at hl
        subst hl
        exact hhd.1
    | cons p0 pre' =>
        intro l hl
        simp only [List.cons_append, List.head?_cons, Option.mem_def, Option.some.injEq] at hl
        subst hl
        exact (hpre p0 (List.mem_cons_self p0 pre')).1
  rw [process_lines_fd_norm ev vars _ 1 (initState fp) hh]
  simp only [initState]
  rw [c1_core ev vars pre post elseBody hd rest elseLine endifLine 1
    ⟨"", none, [BlockKind.Root], false, true, fp⟩ hpre hpost hhd hrest helse helseB hendif
    hevhd hevs rfl rfl rfl rfl]
  simp [str_empty_append]

/-- Witness: the concrete scenarios 1 and 2 of the spec, on the template
`"#IF option(\x22a\x22)\nA\n#ELIF option(\x22b\x22)\nB\n#ELSE\nC\n#ENDIF\n"`:
selection `a, b` yields `"A\n"`, the empty selection yields `"C\n"`. -/
theorem c1_chain_single_branch_witness :
    process_file (evOpt ["a", "b"])
        "#IF option(\"a\")\nA\n#ELIF option(\"b\")\nB\n#ELSE\nC\n#ENDIF\n" [] "f" =
      .ok (some ("A\n", "f")) ∧
    process_file (evOpt [])
        "#IF option(\"a\")\nA\n#ELIF option(\"b\")\nB\n#ELSE\nC\n#ENDIF\n" [] "f" =
      .ok (some ("C\n", "f")) := by
  constructor
  · exact c1_chain_single_branch (evOpt ["a", "b"]) [] "f" [] [] ["C"]
      ⟨"#IF option(\"a\")", "option(\"a\")", ["A"]⟩
      [⟨"#ELIF option(\"b\")", "option(\"b\")", ["B"]⟩] "#ELSE" "#ENDIF"
      (by decide) (by decide) (by decide) (by decide) (by decide) (by decide) (by decide)
      (by decide) (by decide)
  · exact c1_chain_single_branch (evOpt []) [] "f" [] [] ["C"]
      ⟨"#IF option(\"a\")", "option(\"a\")", ["A"]⟩
      [⟨"#ELIF option(\"b\")", "option(\"b\")", ["B"]⟩] "#ELSE" "#ENDIF"
      (by decide) (by decide) (by decide) (by decide) (by decide) (by decide) (by decide)
      (by decide) (by decide)

/-- C9: a line whose trimmed content is exactly `#[rustfmt::skip]` is always
dropped (main.rs:395-399): processing continues with only the
`file_directives` flag cleared, so nothing is appended to the output whatever
the conditional stack — in particular also when every frame emits. -/
theorem c9_rustfmt_skip_dropped (ev : String → Option Bool) (vars : List (String × String))
    (st : PState) (n : Nat) (l : String)
    (hl : strTrim l = "#[rustfmt::skip]") (hif : st.include_file = true) :
    processLine ev vars st n l = .ok (.cont { st with file_directives := false }) := by
  have hk : ∀ fd, lineKind fd (strTrim l) = .other .rustfmtSkip := by
    intro fd; rw [hl]; cases fd <;> rfl
  simp [processLine, hk, hif]

/-- Witness for C9 at a concrete input: the marker line, padded with
whitespace, leaves the fully-emitting initial state's output untouched. -/
theorem c9_rustfmt_skip_dropped_witness :
    processLine (evOpt []) [] (initState "f") 1 "  #[rustfmt::skip]  " =
      .ok (.cont { initState "f" with file_directives := false }) :=
  c9_rustfmt_skip_dropped (evOpt []) [] (initState "f") 1 "  #[rustfmt::skip]  "
    (by decide) rfl

/-- Does a run end in an `UnbalancedDirective`-class failure? -/
def resultUnbalanced : Except PError (Option (String × String)) → Bool
  | .error e => e.isUnbalancedDirective
  | .ok _ => false

/-- C8: with no `IF` open (the conditional stack is just `Root`), an `ENDIF`,
an `ELSE`, or an `ELIF` line makes processing of the file fail with an
`UnbalancedDirective`-class error at once, whatever lines follow: no further
output is produced. -/
theorem c8_unbalanced_fatal (ev : String → Option Bool) (vars : List (String × String))
    (l : String) (rest : List String) (n : Nat) (st : PState)
    (hif : st.include_file = true) (hstack : st.includeStack = [BlockKind.Root])
    (hnf : notFileDirective (strTrim l) = true)
    (hk : restKind (strTrim l) = .endifD ∨ restKind (strTrim l) = .elseD ∨
      ∃ c, restKind (strTrim l) = .elifD c) :
    resultUnbalanced (process_lines ev vars (l :: rest) n st) = true := by
  rcases hk with hk | hk | ⟨c, hk⟩
  · simp [process_lines, processLine, lineKind_other hnf, hk, hif, hstack, resultUnbalanced,
      PError.isUnbalancedDirective]
  · simp [process_lines, processLine, lineKind_other hnf, hk, hif, hstack,
      BlockKind.into_else, resultUnbalanced, PError.isUnbalancedDirective]
  · simp [process_lines, processLine, lineKind_other hnf, hk, hif, hstack,
      BlockKind.into_else_if, resultUnbalanced, PError.isUnbalancedDirective]

/-- Witness for C8 at a concrete input: a lone `#ENDIF` line fails the file
with an unbalanced-directive error. -/
theorem c8_unbalanced_fatal_witness :
    resultUnbalanced (process_lines (evOpt []) [] ["#ENDIF"] 1 (initState "f")) = true :=
  c8_unbalanced_fatal (evOpt []) [] "#ENDIF" [] 1 (initState "f") rfl rfl (by decide)
    (Or.inl (by decide))

/-- C2 (amended): an `IF` directive's condition is evaluated only when the
frame at the top of the stack emits (main.rs:435-440); when that frame does
not emit, the `IF` pushes a forced-false frame without invoking the evaluator
— the result below does not depend on `ev` at all — and appends nothing to
the output.  (The original claim's stronger form, that no conditional
expression in a statically excluded region is ever evaluated, fails: an
`ELIF` whose popped frame is `(false, false)` evaluates its condition even
inside an excluded region — see the counterexample.) -/
theorem c2_if_dead_top_frame_not_evaluated (ev : String → Option Bool)
    (vars : List (String × String)) (st : PState) (n : Nat) (l c : String)
    (last : BlockKind) (tl : List BlockKind)
    (hnf : notFileDirective (strTrim l) = true) (hk : restKind (strTrim l) = .ifD c)
    (hif : st.include_file = true) (hstack : st.includeStack = last :: tl)
    (hemit : last.include_line = false) :
    processLine ev vars st n l =
      .ok (.cont { st with file_directives := false,
                           includeStack := BlockKind.IfElse false false :: last :: tl }) := by
  simp [processLine, lineKind_other hnf, hk, hif, hstack, hemit, BlockKind.new_if]

/-- Witness for the amended C2 at a concrete input: inside a false branch, an
`IF` whose condition no evaluator could evaluate (the evaluator always fails)
still processes fine and emits nothing. -/
theorem c2_if_dead_top_frame_not_evaluated_witness :
    processLine (fun _ => none) []
        ⟨"", none, [BlockKind.IfElse false false, BlockKind.Root], false, true, "f"⟩ 3
        "#IF evil" =
      .ok (.cont ⟨"", none,
        [BlockKind.IfElse false false, BlockKind.IfElse false false, BlockKind.Root],
        false, true, "f"⟩) :=
  c2_if_dead_top_frame_not_evaluated (fun _ => none) [] _ 3 "#IF evil" "evil"
    (BlockKind.IfElse false false) [BlockKind.Root] (by decide) (by decide) rfl rfl (by decide)

/-- Counterexample to C2 as stated: in the template below the whole inner
`IF`/`ELIF` chain sits inside the branch of `IF option("outer")`, which is
false under the empty selection, so the region is statically excluded; yet
processing evaluates the `ELIF` expression `evil` — the evaluator fails on it
and the whole run aborts with `InvalidExpression`, instead of the region
contributing nothing regardless of its expressions. -/
theorem c2_counterexample :
    (fun c => if c = "evil" then none else some (evalOption [] c)) "evil" = none ∧
    evalOption [] "option(\"outer\")" = false ∧
    process_file (fun c => if c = "evil" then none else some (evalOption [] c))
        "#IF option(\"outer\")\n#IF option(\"x\")\n#ELIF evil\n#ENDIF\n#ENDIF\n" [] "f" =
      .error (.invalidExpression "evil") :=
  ⟨rfl, rfl, rfl⟩

/-- C3 (amended): once `include_file` has been set false by an `INCLUDEFILE`
directive, reaching any line that is not a file-level directive returns `Skip`
(`none`, main.rs:389-391): that line and everything after it is not processed
and the file produces no output.  (The original claim's "skipped immediately,
without processing later directives" is refuted by the counterexample: lines
that *are* file-level directives are still processed first, and a later
`INCLUDEFILE` can set `include_file` back to true.) -/
theorem c3_skip_on_next_ordinary_line (ev : String → Option Bool)
    (vars : List (String × String)) (l : String) (rest : List String) (n : Nat) (st : PState)
    (hif : st.include_file = false) (hnf : notFileDirective (strTrim l) = true) :
    process_lines ev vars (l :: rest) n st = .ok none := by
  simp [process_lines, processLine, lineKind_other hnf, hif]

/-- Witness for the amended C3 at a concrete input, plus spec scenario 5: a
file whose first line is `INCLUDEFILE option("feature")` under a selection
without `feature` produces no output and is not written. -/
theorem c3_skip_on_next_ordinary_line_witness :
    process_lines (evOpt []) [] ["X"] 2 ⟨"", none, [BlockKind.Root], true, false, "f"⟩ =
      .ok none ∧
    process_file (evOpt []) "#INCLUDEFILE option(\"feature\")\nX\n" [] "f" = .ok none :=
  ⟨c3_skip_on_next_ordinary_line (evOpt []) [] "X" [] 2 _ rfl (by decide), rfl⟩

/-- Counterexample to C3 as stated: the first `INCLUDEFILE` evaluates false
(`feature` is not selected), yet the file is not skipped — the preprocessor
goes on to process the second `INCLUDEFILE` directive, which re-includes the
file, and the file is produced with output `"X\n"`. -/
theorem c3_counterexample :
    evalOption ["other"] "option(\"feature\")" = false ∧
    process_file (evOpt ["other"])
        "#INCLUDEFILE option(\"feature\")\n#INCLUDEFILE option(\"other\")\nX\n" [] "f" =
      .ok (some ("X\n", "f")) :=
  ⟨rfl, rfl⟩

/-- C6: a `REPLACE` directive at least one of whose pairs resolves sets the
pending replacement (main.rs:423-424); the pairs are applied, as literal
substring substitution, to exactly the next emitted content line, after which
the pending replacement is cleared (main.rs:480-489), so the following content
line is emitted verbatim. -/
theorem c6_replace_applies_to_next_line_once (ev : String → Option Bool)
    (vars : List (String × String)) (fp rl w l1 l2 : String) (ps : List (String × String))
    (hnf : notFileDirective (strTrim rl) = true) (hk : restKind (strTrim rl) = .replaceD w)
    (hps : parseReplace vars w = ps) (hne : ps ≠ [])
    (h1 : plainContent l1) (h2 : plainContent l2) :
    process_file_lines ev vars [rl, l1, l2] fp =
      .ok (some (applyRepl ps l1 ++ "\n" ++ (l2 ++ "\n"), fp)) := by
  unfold process_file_lines
  simp only [initState]
  simp only [process_lines]
  rw [processLine_replaceD_set ev vars ⟨"", none, [BlockKind.Root], true, true, fp⟩ _ rl w ps
    hnf hk rfl hps hne]
  dsimp only
  rw [processLine_plain_emit ev vars ⟨"", some ps, [BlockKind.Root], false, true, fp⟩ _ l1
    (some ps) h1 rfl rfl rfl]
  dsimp only
  rw [processLine_plain_emit ev vars
    ⟨"" ++ applyReplOpt (some ps) l1 ++ "\n", none, [BlockKind.Root], false, true, fp⟩ _ l2
    none h2 rfl rfl rfl]
  dsimp only
  simp [applyReplOpt, str_empty_append, str_append_assoc]

/-- Witness for C6 at a concrete input, plus spec scenario 3: the first
content line has `NAME` replaced by `demo`, the second is emitted verbatim. -/
theorem c6_replace_applies_to_next_line_once_witness :
    process_file_lines (evOpt []) [("proj", "demo")]
        ["#REPLACE NAME proj", "Hello NAME", "Bye NAME"] "f" =
      .ok (some ("Hello demo\nBye NAME\n", "f")) ∧
    process_file (evOpt []) "#REPLACE NAME proj\nHello NAME\n" [("proj", "demo")] "f" =
      .ok (some ("Hello demo\n", "f")) :=
  ⟨c6_replace_applies_to_next_line_once (evOpt []) [("proj", "demo")] "f"
    "#REPLACE NAME proj" "NAME proj" "Hello NAME" "Bye NAME" [("NAME", "demo")]
    (by decide) (by decide) (by decide) (by decide) (by decide) (by decide), rfl⟩

/-- C7: a `REPLACE` directive all of whose variable lookups fail produces an
empty pair list, and the pending replacement is then left untouched
(main.rs:423-424 assigns only when non-empty): an earlier pending replacement
survives and is still applied to the next emitted content line. -/
theorem c7_failed_replace_keeps_pending (ev : String → Option Bool)
    (vars : List (String × String)) (rl w l1 : String) (ps : List (String × String))
    (n : Nat) (st : PState)
    (hnf : notFileDirective (strTrim rl) = true) (hk : restKind (strTrim rl) = .replaceD w)
    (hps : parseReplace vars w = [])
    (hrp : st.replace = some ps) (hif : st.include_file = true)
    (hstk : st.includeStack.all BlockKind.include_line = true)
    (h1 : plainContent l1) :
    process_lines ev vars [rl, l1] n st =
      .ok (some (st.res ++ applyRepl ps l1 ++ "\n", st.file_path)) := by
  obtain ⟨res0, rp0, stk0, fd0, if0, fp0⟩ := st
  simp only at hrp hif hstk
  subst hrp hif
  simp only [process_lines]
  rw [processLine_replaceD_keep ev vars _ n rl w hnf hk rfl hps]
  dsimp only
  rw [processLine_plain_emit ev vars ⟨res0, some ps, stk0, false, true, fp0⟩ _ l1
    (some ps) h1 rfl rfl hstk]
  dsimp only
  simp [process_lines, applyReplOpt, str_append_assoc]

/-- Witness for C7 at a concrete input: with an empty variable table the
lookup of `proj` fails, yet the earlier pending pair still rewrites the next
content line. -/
theorem c7_failed_replace_keeps_pending_witness :
    process_lines (evOpt []) [] ["#REPLACE NAME proj", "Hello NAME"] 1
        ⟨"", some [("NAME", "demo")], [BlockKind.Root], false, true, "f"⟩ =
      .ok (some ("Hello demo\n", "f")) :=
  c7_failed_replace_keeps_pending (evOpt []) [] "#REPLACE NAME proj" "NAME proj" "Hello NAME"
    [("NAME", "demo")] 1 _ (by decide) (by decide) (by decide) rfl rfl (by decide) (by decide)

/-- C10: a `REPLACE` directive inside an excluded conditional branch is still
recognized and still sets the pending replacement — the `REPLACE` test
(main.rs:402) precedes and ignores the conditional stack — so the pairs it
sets apply to the next content line emitted anywhere later in the file,
here a line after the `ENDIF` closing the excluded branch. -/
theorem c10_replace_recognized_in_dead_branch (ev : String → Option Bool)
    (vars : List (String × String)) (fp ifl c rl w el l1 : String)
    (ps : List (String × String))
    (hnfI : notFileDirective (strTrim ifl) = true) (hkI : restKind (strTrim ifl) = .ifD c)
    (hev : ev c = some false)
    (hnfR : notFileDirective (strTrim rl) = true) (hkR : restKind (strTrim rl) = .replaceD w)
    (hps : parseReplace vars w = ps) (hne : ps ≠ [])
    (hnfE : notFileDirective (strTrim el) = true) (hkE : restKind (strTrim el) = .endifD)
    (h1 : plainContent l1) :
    process_file_lines ev vars [ifl, rl, el, l1] fp =
      .ok (some (applyRepl ps l1 ++ "\n", fp)) := by
  unfold process_file_lines
  simp only [initState]
  simp only [process_lines]
  rw [processLine_ifD_eval ev vars ⟨"", none, [BlockKind.Root], true, true, fp⟩ _ ifl c
    BlockKind.Root [] false hnfI hkI rfl rfl rfl hev]
  dsimp only
  rw [processLine_replaceD_set ev vars
    ⟨"", none, [BlockKind.IfElse false false, BlockKind.Root], false, true, fp⟩ _ rl w ps
    hnfR hkR rfl hps hne]
  dsimp only
  rw [processLine_endifD ev vars
    ⟨"", some ps, [BlockKind.IfElse false false, BlockKind.Root], false, true, fp⟩ _ el
    false false [BlockKind.Root] hnfE hkE rfl rfl]
  dsimp only
  rw [processLine_plain_emit ev vars ⟨"", some ps, [BlockKind.Root], false, true, fp⟩ _ l1
    (some ps) h1 rfl rfl rfl]
  dsimp only
  simp [applyReplOpt, str_empty_append]

/-- Witness for C10 at a concrete input: the `REPLACE` sits inside the branch
of a false `IF`, yet the content line after the `ENDIF` is rewritten. -/
theorem c10_replace_recognized_in_dead_branch_witness :
    process_file (evOpt []) "#IF option(\"a\")\n#REPLACE NAME proj\n#ENDIF\nHello NAME\n"
        [("proj", "demo")] "f" =
      .ok (some ("Hello demo\n", "f")) :=
  c10_replace_recognized_in_dead_branch (evOpt []) [("proj", "demo")] "f"
    "#IF option(\"a\")" "option(\"a\")" "#REPLACE NAME proj" "NAME proj" "#ENDIF" "Hello NAME"
    [("NAME", "demo")] (by decide) (by decide) (by decide) (by decide) (by decide)
    (by decide) (by decide) (by decide) (by decide) (by decide)

theorem mem_foldr_violations (f : String → List Violation) (sel : List String) (opt : String)
    (v : Violation) (ho : opt ∈ sel) (hv : v ∈ f opt) :
    v ∈ sel.foldr (fun o acc => f o ++ acc) [] := by
  induction sel with
  | nil => cases ho
  | cons o sel' ih =>
      rcases List.mem_cons.mp ho with h | h
      · subst h; exact List.mem_append_left _ hv
      · exact List.mem_append_right _ (ih h)

/-- C4: for a selected name, if no catalog entry carries that name, validation
logs `UnknownOption` for it and fails (main.rs:570-572); if entries exist but
every one of them has a non-empty chip list excluding the target chip,
validation logs `UnsupportedForPlatform` and fails (main.rs:520-522, 573-576).
Failure simply means the violation list is non-empty (`success = false`). -/
theorem c4_unknown_and_unsupported (all_options : List GeneratorOption)
    (selected : List String) (chip opt : String) (hsel : opt ∈ selected) :
    ((∀ item ∈ all_options, item.name ≠ opt) →
      Violation.UnknownOption opt ∈ process_options all_options selected chip ∧
      process_options all_options selected chip ≠ []) ∧
    (((∃ item ∈ all_options, item.name = opt) ∧
      (∀ item ∈ all_options, item.name = opt → item.chips ≠ [] ∧ chip ∉ item.chips)) →
      Violation.UnsupportedForPlatform opt chip ∈ process_options all_options selected chip ∧
      process_options all_options selected chip ≠ []) := by
  constructor
  · intro hnone
    have hfilter : all_options.filter (fun item => item.name == opt) = [] := by
      rw [List.filter_eq_nil_iff]
      intro item hitem
      simp [hnone item hitem]
    have hviol : option_violations all_options selected chip opt =
        [Violation.UnknownOption opt] := by
      simp [option_violations, hfilter]
    have hmem : Violation.UnknownOption opt ∈ process_options all_options selected chip := by
      unfold process_options
      exact List.mem_append_left _
        (mem_foldr_violations _ selected opt _ hsel (by simp [hviol]))
    exact ⟨hmem, List.ne_nil_of_mem hmem⟩
  · rintro ⟨⟨item0, hitem0, hname0⟩, hall⟩
    have hmem0 : item0 ∈ all_options.filter (fun item => item.name == opt) :=
      List.mem_filter.mpr ⟨hitem0, by simp [hname0]⟩
    have hne : (all_options.filter (fun item => item.name == opt)).isEmpty = false := by
      simp [List.isEmpty_iff]
      exact ⟨item0, hitem0, hname0⟩
    have happ : (all_options.filter (fun item => item.name == opt)).filter
        (fun item => item.chips.contains chip || item.chips.isEmpty) = [] := by
      rw [List.filter_eq_nil_iff]
      intro item hitem
      obtain ⟨hmemA, hnmA⟩ := List.mem_filter.mp hitem
      obtain ⟨hchips, hnotin⟩ := hall item hmemA (by simpa using hnmA)
      simp [List.isEmpty_iff, hchips]
      simpa using hnotin
    have hviol : option_violations all_options selected chip opt =
        [Violation.UnsupportedForPlatform opt chip] := by
      simp only [option_violations, hne, happ]
      simp
    have hmem : Violation.UnsupportedForPlatform opt chip ∈
        process_options all_options selected chip := by
      unfold process_options
      exact List.mem_append_left _
        (mem_foldr_violations _ selected opt _ hsel (by simp [hviol]))
    exact ⟨hmem, List.ne_nil_of_mem hmem⟩

/-- Witness for C4 at concrete inputs: the unknown name `y` against an empty
catalog, and spec scenario 4 — option `x` applicable only to platform `p2`,
selected while targeting `p1`. -/
theorem c4_unknown_and_unsupported_witness :
    (Violation.UnknownOption "y" ∈ process_options [] ["y"] "p1" ∧
      process_options [] ["y"] "p1" ≠ []) ∧
    (Violation.UnsupportedForPlatform "x" "p1" ∈
        process_options [⟨"x", ["p2"], [], [], ""⟩] ["x"] "p1" ∧
      process_options [⟨"x", ["p2"], [], [], ""⟩] ["x"] "p1" ≠ []) :=
  ⟨(c4_unknown_and_unsupported [] ["y"] "p1" "y" (by decide)).1 (by decide),
   (c4_unknown_and_unsupported [⟨"x", ["p2"], [], [], ""⟩] ["x"] "p1" "x" (by decide)).2
     (by decide)⟩

theorem lookupNames_record_group_mono (gs : List (String × List String)) (g g' x opt : String)
    (h : x ∈ lookupNames gs g') : x ∈ lookupNames (record_group gs g opt) g' := by
  induction gs with
  | nil => simp [lookupNames] at h
  | cons e rest ih =>
      by_cases h1 : (e.1 == g) = true
      · by_cases h2 : opt ∈ e.2
        · simpa [record_group, h1, h2] using h
        · by_cases h3 : (e.1 == g') = true
          · simp [record_group, h1, h2, lookupNames, h3] at h ⊢
            exact Or.inl h
          · simpa [record_group, h1, h2, lookupNames, h3] using h
      · by_cases h3 : (e.1 == g') = true
        · simpa [record_group, h1, lookupNames, h3] using h
        · simp [record_group, h1, lookupNames, h3] at h ⊢
          exact ih h

theorem mem_lookupNames_record_group_self (gs : List (String × List String)) (g opt : String) :
    opt ∈ lookupNames (record_group gs g opt) g := by
  induction gs with
  | nil => simp [lookupNames, record_group]
  | cons e rest ih =>
      by_cases h1 : (e.1 == g) = true
      · by_cases h2 : opt ∈ e.2
        · simp [record_group, h1, h2, lookupNames]
        · simp [record_group, h1, h2, lookupNames]
      · simp [record_group, h1, lookupNames]
        exact ih

theorem lookupNames_mem_entry (gs : List (String × List String)) (g : String)
    (h : lookupNames gs g ≠ []) : ∃ e ∈ gs, e.1 = g ∧ e.2 = lookupNames gs g := by
  induction gs with
  | nil => simp [lookupNames] at h
  | cons e rest ih =>
      by_cases h1 : (e.1 == g) = true
      · exact ⟨e, List.mem_cons_self e rest, by simpa using h1, by simp [lookupNames, h1]⟩
      · have h' : lookupNames rest g ≠ [] := by simpa [lookupNames, h1] using h
        obtain ⟨e', he', hg', hl'⟩ := ih h'
        exact ⟨e', List.mem_cons_of_mem _ he', hg', by simp [lookupNames, h1, hl']⟩

theorem lookupNames_item_fold_mono (selected : List String) (chip opt : String)
    (items : List GeneratorOption) (gs : List (String × List String)) (g' x : String)
    (h : x ∈ lookupNames gs g') :
    x ∈ lookupNames (items.foldl (group_item_step selected chip opt) gs) g' := by
  induction items generalizing gs with
  | nil => simpa using h
  | cons it rest ih =>
      simp only [List.foldl_cons]
      apply ih
      unfold group_item_step
      by_cases hc : ((it.chips.contains chip || it.chips.isEmpty) &&
          is_option_active selected it && !(it.selection_group == "")) = true
      · rw [if_pos hc]
        exact lookupNames_record_group_mono gs it.selection_group g' x opt h
      · rw [if_neg hc]
        exact h

theorem lookupNames_item_fold_hit (selected : List String) (chip opt g : String)
    (items : List GeneratorOption) (ea : GeneratorOption)
    (hea : ea ∈ items)
    (hcond : ((ea.chips.contains chip || ea.chips.isEmpty) &&
      is_option_active selected ea && !(ea.selection_group == "")) = true)
    (hg : ea.selection_group = g) :
    ∀ gs, opt ∈ lookupNames (items.foldl (group_item_step selected chip opt) gs) g := by
  induction items with
  | nil => cases hea
  | cons it rest ih =>
      intro gs
      rcases List.mem_cons.mp hea with h | h
      · subst h
        simp only [List.foldl_cons, group_item_step]
        rw [if_pos hcond, hg]
        exact lookupNames_item_fold_mono selected chip opt rest _ g opt
          (mem_lookupNames_record_group_self gs g opt)
      · simp only [List.foldl_cons]
        exact ih h _

theorem lookupNames_outer_fold_mono (all_options : List GeneratorOption)
    (selected : List String) (chip : String) (sel' : List String)
    (gs : List (String × List String)) (g x : String)
    (h : x ∈ lookupNames gs g) :
    x ∈ lookupNames (sel'.foldl (group_step all_options selected chip) gs) g := by
  induction sel' generalizing gs with
  | nil => simpa using h
  | cons o rest ih =>
      simp only [List.foldl_cons]
      exact ih _ (lookupNames_item_fold_mono selected chip o _ gs g x h)

theorem collect_groups_mem (all_options : List GeneratorOption) (selected : List String)
    (chip : String) (a g : String) (ea : GeneratorOption)
    (ha : a ∈ selected) (hea : ea ∈ all_options) (hname : ea.name = a)
    (happ : (ea.chips.contains chip || ea.chips.isEmpty) = true)
    (hact : is_option_active selected ea = true)
    (hg : ea.selection_group = g) (hgne : g ≠ "") :
    a ∈ lookupNames (collect_groups all_options selected chip) g := by
  have hcond : ((ea.chips.contains chip || ea.chips.isEmpty) &&
      is_option_active selected ea && !(ea.selection_group == "")) = true := by
    simp [hact, hg]
    exact ⟨by simpa using happ, hgne⟩
  have hea' : ea ∈ all_options.filter (fun item => item.name == a) :=
    List.mem_filter.mpr ⟨hea, by simp [hname]⟩
  unfold collect_groups
  obtain ⟨s, t, rfl⟩ := List.append_of_mem ha
  rw [List.foldl_append]
  simp only [List.foldl_cons]
  apply lookupNames_outer_fold_mono
  unfold group_step
  exact lookupNames_item_fold_hit _ chip a g _ ea hea' hcond hg _

theorem one_lt_length_of_two_mem {α : Type} (l : List α) (a b : α)
    (ha : a ∈ l) (hb : b ∈ l) (hab : a ≠ b) : 1 < l.length := by
  cases l with
  | nil => cases ha
  | cons x xs =>
      cases xs with
      | nil =>
          simp at ha hb
          subst ha hb
          exact absurd rfl hab
      | cons y ys => simp

/-- C5 (amended): two distinct selected option names sharing a non-empty
`selection_group`, each through a catalog entry that is applicable to the chip
and *active* under the selection, always make validation fail with a
`MutuallyExclusiveConflict` naming both, whatever the order of the selection.
(The original claim, without the activity requirement, is refuted by the
counterexample: the group map only records active entries, main.rs:527-541.) -/
theorem c5_active_groupmates_conflict (all_options : List GeneratorOption)
    (selected : List String) (chip a b g : String) (ea eb : GeneratorOption)
    (hab : a ≠ b) (ha : a ∈ selected) (hb : b ∈ selected)
    (hea : ea ∈ all_options) (heb : eb ∈ all_options)
    (hnamea : ea.name = a) (hnameb : eb.name = b)
    (happa : (ea.chips.contains chip || ea.chips.isEmpty) = true)
    (happb : (eb.chips.contains chip || eb.chips.isEmpty) = true)
    (hacta : is_option_active selected ea = true)
    (hactb : is_option_active selected eb = true)
    (hga : ea.selection_group = g) (hgb : eb.selection_group = g) (hgne : g ≠ "") :
    ∃ entries, Violation.MutuallyExclusiveConflict entries ∈
        process_options all_options selected chip ∧ a ∈ entries ∧ b ∈ entries := by
  have hma : a ∈ lookupNames (collect_groups all_options selected chip) g :=
    collect_groups_mem all_options selected chip a g ea ha hea hnamea happa hacta hga hgne
  have hmb : b ∈ lookupNames (collect_groups all_options selected chip) g :=
    collect_groups_mem all_options selected chip b g eb hb heb hnameb happb hactb hgb hgne
  obtain ⟨e, he, heg, hel⟩ :=
    lookupNames_mem_entry (collect_groups all_options selected chip) g
      (List.ne_nil_of_mem hma)
  have hma' : a ∈ e.2 := by rw [hel]; exact hma
  have hmb' : b ∈ e.2 := by rw [hel]; exact hmb
  have hlen : 1 < e.2.length := one_lt_length_of_two_mem e.2 a b hma' hmb' hab
  refine ⟨e.2, ?_, hma', hmb'⟩
  unfold process_options
  apply List.mem_append_right
  exact List.mem_filterMap.mpr ⟨e, he, by rw [if_pos hlen]⟩

/-- Witness for the amended C5 at a concrete input: two active options in
group `g`, selected in the order `b, a`, collide. -/
theorem c5_active_groupmates_conflict_witness :
    ∃ entries, Violation.MutuallyExclusiveConflict entries ∈
        process_options [⟨"a", [], [], [], "g"⟩, ⟨"b", [], [], [], "g"⟩] ["b", "a"] "p1" ∧
      "a" ∈ entries ∧ "b" ∈ entries :=
  c5_active_groupmates_conflict [⟨"a", [], [], [], "g"⟩, ⟨"b", [], [], [], "g"⟩] ["b", "a"]
    "p1" "a" "b" "g" ⟨"a", [], [], [], "g"⟩ ⟨"b", [], [], [], "g"⟩
    (by decide) (by decide) (by decide) (by decide) (by decide) (by decide) (by decide)
    (by decide) (by decide) (by decide) (by decide) (by decide) (by decide) (by decide)

/-- Does a violation list contain a `MutuallyExclusiveConflict`? -/
def containsMEC (vs : List Violation) : Bool :=
  vs.any fun v =>
    match v with
    | .MutuallyExclusiveConflict _ => true
    | _ => false

/-- Counterexample to C5 as stated: options `a` (with an unmet requirement on
`z`) and `b` are both selected and share the non-empty selection group `g`,
yet validation fails only with `UnmetRequirement` — no
`MutuallyExclusiveConflict` is reported, because the group map records only
active options and `a` is not active. -/
theorem c5_counterexample :
    (⟨"a", [], ["z"], [], "g"⟩ : GeneratorOption).selection_group =
      (⟨"b", [], [], [], "g"⟩ : GeneratorOption).selection_group ∧
    process_options [⟨"a", [], ["z"], [], "g"⟩, ⟨"b", [], [], [], "g"⟩] ["a", "b"] "p1" =
      [Violation.UnmetRequirement "a" ["z"]] ∧
    containsMEC
      (process_options [⟨"a", [], ["z"], [], "g"⟩, ⟨"b", [], [], [], "g"⟩] ["a", "b"] "p1") =
      false :=
  ⟨rfl, rfl, rfl⟩

/-- The embedding reproduces the source's own unit tests
(`test_nested_if_else1`/`3`/`4`/`5`, main.rs:621-767), on the exact raw
template strings of those tests. -/
theorem embedding_matches_source_nested_tests :
    process_file (evOpt ["opt1", "opt2"])
        "\n        #IF option(\"opt1\")\n        opt1\n        #IF option(\"opt2\")\n        opt2\n        #ELSE\n        !opt2\n        #ENDIF\n        #ELSE\n        !opt1\n        #ENDIF\n        "
        [] "main.rs" =
      .ok (some ("\n        opt1\n        opt2\n        \n", "main.rs")) ∧
    process_file (evOpt [])
        "\n        #IF option(\"opt1\")\n        opt1\n        #IF option(\"opt2\")\n        opt2\n        #ELSE\n        !opt2\n        #ENDIF\n        #ELSE\n        !opt1\n        #ENDIF\n        "
        [] "main.rs" =
      .ok (some ("\n        !opt1\n        \n", "main.rs")) ∧
    process_file (evOpt ["opt1"])
        "\n        #IF option(\"opt1\")\n        #IF option(\"opt2\")\n        opt2\n        #ELSE\n        !opt2\n        #ENDIF\n        opt1\n        #ENDIF\n        "
        [] "main.rs" =
      .ok (some ("\n        !opt2\n        opt1\n        \n", "main.rs")) ∧
    process_file (evOpt ["opt2"])
        "\n        #IF option(\"opt1\")\n        #IF option(\"opt2\")\n        opt2\n        #ELSE\n        !opt2\n        #ENDIF\n        opt1\n        #ENDIF\n        "
        [] "main.rs" =
      .ok (some ("\n        \n", "main.rs")) :=
  ⟨rfl, rfl, rfl, rfl⟩

/-- The embedding reproduces the source's `test_basic_elseif` table
(main.rs:769-805) at four representative selections. -/
theorem embedding_matches_source_elseif_test :
    process_file (evOpt ["opt1", "opt2", "opt3"])
        "#IF option(\"opt1\")\nopt1\n#ELIF option(\"opt2\")\nopt2\n#ELIF option(\"opt3\")\nopt3\n#ELSE\nopt4\n#ENDIF\n"
        [] "f" = .ok (some ("opt1\n", "f")) ∧
    process_file (evOpt ["opt2", "opt3"])
        "#IF option(\"opt1\")\nopt1\n#ELIF option(\"opt2\")\nopt2\n#ELIF option(\"opt3\")\nopt3\n#ELSE\nopt4\n#ENDIF\n"
        [] "f" = .ok (some ("opt2\n", "f")) ∧
    process_file (evOpt ["opt3"])
        "#IF option(\"opt1\")\nopt1\n#ELIF option(\"opt2\")\nopt2\n#ELIF option(\"opt3\")\nopt3\n#ELSE\nopt4\n#ENDIF\n"
        [] "f" = .ok (some ("opt3\n", "f")) ∧
    process_file (evOpt [])
        "#IF option(\"opt1\")\nopt1\n#ELIF option(\"opt2\")\nopt2\n#ELIF option(\"opt3\")\nopt3\n#ELSE\nopt4\n#ENDIF\n"
        [] "f" = .ok (some ("opt4\n", "f")) :=
  ⟨rfl, rfl, rfl, rfl⟩
